import Mathlib

/-!
# Packet-capture controller: capture lifecycle manager and reconciliation step

Shallow embedding of `pkg/capture/manager.go` (the `Manager` with its
`captures` table) and of `handlePod` from `cmd/controller/main.go`.

The manager talks to the operating system (process launch, signal, wait,
glob, file removal).  The outcome of a launch, a signal, a wait and a removal
is an explicit argument of the embedded operation, and every call is recorded
in an event trace, so that statements about what the code attempts can be made
for every outcome.  The file system is the directory `/capture`, given by the
names of its entries; `strconv.Atoi`, `filepath.Match` and `filepath.Glob` are
modelled from their documented behaviour on Unix.
-/

namespace PacketCapture

/-! ## Go library functions used by the source -/

/-- Value of a non-empty string of ASCII decimal digits, `none` on any other
input.  The accumulator is the value read so far. -/
def digitsValue : List Char → Nat → Option Nat
  | [], acc => some acc
  | c :: cs, acc =>
    if c.isDigit then digitsValue cs (acc * 10 + (c.toNat - 48)) else none

/-- Unsigned part of `strconv.Atoi`: at least one digit, digits only. -/
def parseUnsigned (cs : List Char) : Option Nat :=
  if cs.isEmpty then none else digitsValue cs 0

/-- Model of `strconv.Atoi` for the 64-bit `int`: an optional sign followed by
one or more decimal digits, with the value in the range of `int`; `none`
stands for a returned error (syntax or range). -/
def Atoi (s : String) : Option Int :=
  match s.data with
  | [] => none
  | '-' :: ds =>
    match parseUnsigned ds with
    | some n => if n ≤ 2 ^ 63 then some (-(n : Int)) else none
    | none => none
  | '+' :: ds =>
    match parseUnsigned ds with
    | some n => if n < 2 ^ 63 then some (n : Int) else none
    | none => none
  | ds =>
    match parseUnsigned ds with
    | some n => if n < 2 ^ 63 then some (n : Int) else none
    | none => none

/-- One term of a `filepath.Match` pattern. -/
inductive Term where
  | star
  | any
  | cls (negated : Bool) (ranges : List (Char × Char))
  | lit (c : Char)
  deriving DecidableEq, Repr

/-- The helper `getEsc` of `filepath.Match`: one possibly escaped character of
a character class, and the rest of the pattern; `none` is `ErrBadPattern`. -/
def getEsc : List Char → Option (Char × List Char)
  | [] => none
  | '-' :: _ => none
  | ']' :: _ => none
  | '\\' :: [] => none
  | '\\' :: c :: rest => if rest.isEmpty then none else some (c, rest)
  | c :: rest => if rest.isEmpty then none else some (c, rest)

/-- The ranges of a character class up to the closing bracket. -/
def parseRanges : Nat → List Char → List (Char × Char) →
    Option (List (Char × Char) × List Char)
  | 0, _, _ => none
  | fuel + 1, chunk, acc =>
    match chunk, acc with
    | ']' :: rest, _ :: _ => some (acc.reverse, rest)
    | _, _ =>
      match getEsc chunk with
      | none => none
      | some (lo, chunk1) =>
        match chunk1 with
        | '-' :: chunk2 =>
          match getEsc chunk2 with
          | none => none
          | some (hi, chunk3) => parseRanges fuel chunk3 ((lo, hi) :: acc)
        | _ => parseRanges fuel chunk1 ((lo, lo) :: acc)

/-- A character class after its opening bracket. -/
def parseClass (chunk : List Char) : Option (Term × List Char) :=
  match chunk with
  | '^' :: rest =>
    (parseRanges (rest.length + 1) rest []).map (fun r => (Term.cls true r.1, r.2))
  | _ =>
    (parseRanges (chunk.length + 1) chunk []).map (fun r => (Term.cls false r.1, r.2))

/-- The terms of a pattern; `none` when the pattern is malformed. -/
def parseTerms : Nat → List Char → Option (List Term)
  | 0, _ => none
  | fuel + 1, pattern =>
    match pattern with
    | [] => some []
    | '*' :: rest => (parseTerms fuel rest).map (fun ts => Term.star :: ts)
    | '?' :: rest => (parseTerms fuel rest).map (fun ts => Term.any :: ts)
    | '[' :: rest =>
      match parseClass rest with
      | none => none
      | some (t, rest1) => (parseTerms fuel rest1).map (fun ts => t :: ts)
    | '\\' :: [] => none
    | '\\' :: c :: rest => (parseTerms fuel rest).map (fun ts => Term.lit c :: ts)
    | c :: rest => (parseTerms fuel rest).map (fun ts => Term.lit c :: ts)

/-- The suffixes of a name that a star can leave: a star matches any sequence
of characters other than the separator. -/
def starSuffixes : List Char → List (List Char)
  | [] => [[]]
  | c :: cs => (c :: cs) :: (if c = '/' then [] else starSuffixes cs)

/-- Does the whole name match the sequence of terms. -/
def matchTerms : List Term → List Char → Bool
  | [], name => name.isEmpty
  | Term.star :: ts, name => (starSuffixes name).any (matchTerms ts)
  | Term.any :: _, [] => false
  | Term.any :: ts, c :: cs => c != '/' && matchTerms ts cs
  | Term.cls _ _ :: _, [] => false
  | Term.cls negated ranges :: ts, c :: cs =>
    ((ranges.any (fun r => decide (r.1 ≤ c) && decide (c ≤ r.2))) != negated)
      && matchTerms ts cs
  | Term.lit _ :: _, [] => false
  | Term.lit a :: ts, c :: cs => a == c && matchTerms ts cs

/-- Model of `filepath.Match(pattern, name)` on Unix, from its documented
grammar: `none` is `ErrBadPattern` (malformed pattern), `some b` is the
result `b` without error. -/
def Match (pattern name : String) : Option Bool :=
  match parseTerms (pattern.data.length + 1) pattern.data with
  | none => none
  | some ts => some (matchTerms ts name.data)

/-- Model of `filepath.Split`: the path up to and including its last separator,
and what follows it. -/
def Split : List Char → List Char × List Char
  | [] => ([], [])
  | c :: cs =>
    if (Split cs).1.isEmpty then
      (if c = '/' then ([c], cs) else ([], c :: cs))
    else (c :: (Split cs).1, (Split cs).2)

/-- The directory in which the captures are written, with its separator. -/
def captureDir : String := "/capture/"

/-- Model of the list returned by `filepath.Glob(pattern)` for a pattern below
`/capture` that contains a metacharacter (every pattern of the source ends in a
star), in a world where `/capture` has the entries `names` (in the sorted order
of a directory listing) and no subdirectory.  A malformed pattern gives the
empty list; otherwise the pattern is split at its last separator, and the
entries of `/capture` that match the last element are returned, joined to the
directory; a pattern whose directory part is not `/capture/` finds nothing.
The error returned next to the list is discarded by `stopCaptureLocked` and is
not modelled. -/
def Glob (pattern : String) (names : List String) : List String :=
  match Match pattern "" with
  | none => []
  | some _ =>
    if (Split pattern.data).1 = captureDir.data then
      (names.filter
        (fun n => Match (String.mk (Split pattern.data).2) n == some true)).map
        (fun n => captureDir ++ n)
    else []

/-! ## The manager and the world it acts on -/

/-- A started `*exec.Cmd`: the identity of its process handle and its argument
vector.  Handles are never reused within one run of the controller. -/
structure Cmd where
  pid : Nat
  args : List String
  deriving DecidableEq, Repr

/-- The records written through `slog` by the two source files. -/
inductive LogRecord where
  | failedToStart (pod : String)
  | captureStarted (pod : String) (pid : Nat) (file : String)
  | stoppingCapture (pod : String) (pid : Nat)
  | failedToSignal
  | removedCaptureFile (file : String)
  | startingCapture (pod : String) (ns : String) (maxFiles : Int)
  | annotationRemoved (pod : String) (ns : String)
  deriving DecidableEq, Repr

/-- One interaction with the outside world, in the order the code performs
them. -/
inductive Event where
  /-- Call of `cmd.Start()`: `some pid` when the process was started, `none` on error. -/
  | cmdStart (args : List String) (pid : Option Nat)
  /-- Call of `cmd.Process.Signal(syscall.SIGTERM)` and whether it returned no error. -/
  | signal (pid : Nat) (ok : Bool)
  /-- Call of `cmd.Wait()` and whether it returned no error. -/
  | wait (pid : Nat) (ok : Bool)
  /-- Call of `os.Remove(path)` and whether it returned no error. -/
  | remove (path : String) (ok : Bool)
  /-- A record written through `slog`. -/
  | log (r : LogRecord)
  deriving DecidableEq, Repr

/-- The manager's table together with the part of the operating system it
touches.  `captures` is the Go map `Manager.captures` as an association list,
`files` the names of the entries of the directory `/capture`, `events` the
trace of calls made so far (oldest first), `nextPid` the next unused process
handle. -/
structure State where
  captures : List (String × Cmd)
  nextPid : Nat
  files : List String
  events : List Event

/-- Outcomes of the system calls made by one run of `stopCaptureLocked`. -/
structure StopOutcome where
  signalOk : Bool
  waitOk : Bool
  removeOk : String → Bool

/-- Map read `m[k]` with the comma-ok result. -/
def mapLookup (k : String) : List (String × Cmd) → Option Cmd
  | [] => none
  | (k1, c) :: m => if k1 = k then some c else mapLookup k m

/-- Map removal `delete(m, k)`. -/
def mapDelete (k : String) (m : List (String × Cmd)) : List (String × Cmd) :=
  m.filter (fun e => decide (e.1 ≠ k))

/-- Map write `m[k] = v`. -/
def mapInsert (k : String) (v : Cmd) (m : List (String × Cmd)) : List (String × Cmd) :=
  (k, v) :: mapDelete k m

/-- The keys of the table. -/
def keys (s : State) : List String := s.captures.map Prod.fst

/-- The process handles held in the table. -/
def trackedPids (s : State) : List Nat := s.captures.map (fun e => e.2.pid)

/-- Append events to the trace. -/
def State.emit (s : State) (es : List Event) : State :=
  { s with events := s.events ++ es }

/-- The manager returned by `NewManager()`, in a world with the given files and
next process handle. -/
def NewManager (nextPid : Nat) (files : List String) : State :=
  { captures := [], nextPid := nextPid, files := files, events := [] }

/-- The method `Manager.IsCapturing`. -/
def IsCapturing (s : State) (podName : String) : Bool :=
  (mapLookup podName s.captures).isSome

/-- The name of the output file of a pod within `/capture`. -/
def captureName (podName : String) : String :=
  "capture-" ++ podName ++ ".pcap"

/-- The pattern of the names of the files of a pod within `/capture`. -/
def namePattern (podName : String) : String :=
  "capture-" ++ podName ++ ".pcap*"

/-- The output file of a pod, `fmt.Sprintf("/capture/capture-%s.pcap", podName)`. -/
def captureFile (podName : String) : String :=
  "/capture/capture-" ++ podName ++ ".pcap"

/-- The deletion pattern of a pod,
`fmt.Sprintf("/capture/capture-%s.pcap*", podName)`. -/
def capturePattern (podName : String) : String :=
  "/capture/capture-" ++ podName ++ ".pcap*"

/-- The argument vector built by `exec.Command` in `StartCapture`. -/
def tcpdumpArgs (podName : String) (maxFiles : Int) : List String :=
  ["tcpdump", "-C", "1", "-W", toString maxFiles, "-w", captureFile podName, "-i", "any"]

/-- The method `Manager.StartCapture`; `launchOk` is whether `cmd.Start()` succeeds. -/
def StartCapture (launchOk : Bool) (podName : String) (maxFiles : Int) (s : State) : State :=
  if (mapLookup podName s.captures).isSome then s
  else
    let args := tcpdumpArgs podName maxFiles
    if launchOk then
      let cmd : Cmd := { pid := s.nextPid, args := args }
      { s with
        captures := mapInsert podName cmd s.captures
        nextPid := s.nextPid + 1
        events := s.events ++
          [Event.cmdStart args (some cmd.pid),
           Event.log (LogRecord.captureStarted podName cmd.pid (captureFile podName))] }
    else
      s.emit [Event.cmdStart args none, Event.log (LogRecord.failedToStart podName)]

/-- One iteration of the removal loop: `os.Remove(f)` followed by the log
record, which is written whatever `os.Remove` returned.  A successful removal
of the path `f` deletes the entry of `/capture` with that path. -/
def removeFile (o : StopOutcome) (s : State) (f : String) : State :=
  { s with
    files :=
      if o.removeOk f then s.files.filter (fun g => decide (captureDir ++ g ≠ f))
      else s.files
    events := s.events ++
      [Event.remove f (o.removeOk f), Event.log (LogRecord.removedCaptureFile f)] }

/-- The method `Manager.stopCaptureLocked`. -/
def stopCaptureLocked (o : StopOutcome) (podName : String) (s : State) : State :=
  match mapLookup podName s.captures with
  | none => s
  | some cmd =>
    let s1 := s.emit [Event.log (LogRecord.stoppingCapture podName cmd.pid)]
    let s2 := s1.emit
      (Event.signal cmd.pid o.signalOk ::
        (if o.signalOk then [] else [Event.log LogRecord.failedToSignal]))
    let s3 := s2.emit [Event.wait cmd.pid o.waitOk]
    let s4 := { s3 with captures := mapDelete podName s3.captures }
    let files := Glob (capturePattern podName) s4.files
    files.foldl (removeFile o) s4

/-- The method `Manager.StopCapture`. -/
def StopCapture (o : StopOutcome) (podName : String) (s : State) : State :=
  stopCaptureLocked o podName s

/-- The method `Manager.StopAll`.  `order` is the order in which the `range`
loop produces the keys of the map; a key whose entry was deleted before the
loop reached it is not produced.  `o k` gives the outcomes of the system calls
made for `k`. -/
def StopAll (order : List String) (o : String → StopOutcome) (s : State) : State :=
  order.foldl
    (fun st k => if (mapLookup k st.captures).isSome then stopCaptureLocked (o k) k st else st) s

/-! ## The reconciliation step -/

/-- The annotation that requests a capture. -/
def annotationKey : String := "tcpdump.antrea.io"

/-- The fields of `corev1.Pod` read by the controller. -/
structure Pod where
  name : String
  ns : String
  annotations : List (String × String)

/-- Map read `pod.Annotations[key]` with the comma-ok result. -/
def annotationLookup (key : String) : List (String × String) → Option String
  | [] => none
  | (k, v) :: m => if k = key then some v else annotationLookup key m

/-- The `maxFiles` computed by `handlePod` from the annotation value. -/
def parseMaxFiles ( annotation : String) : Int :=
  match Atoi annotation with
  | none => 1
  | some maxFiles => if maxFiles ≤ 0 then 1 else maxFiles

/-- The function `handlePod`; `launchOk` and `o` are the outcomes of the system
calls of the manager call it makes, if any. -/
def handlePod (launchOk : Bool) (o : StopOutcome) (pod : Pod) (s : State) : State :=
  match annotationLookup annotationKey pod.annotations with
  | some annotation =>
    if !IsCapturing s pod.name then
      let maxFiles := parseMaxFiles annotation
      StartCapture launchOk pod.name maxFiles
        (s.emit [Event.log (LogRecord.startingCapture pod.name pod.ns maxFiles)])
    else s
  | none =>
    if IsCapturing s pod.name then
      StopCapture o pod.name
        (s.emit [Event.log (LogRecord.annotationRemoved pod.name pod.ns)])
    else s

/-! ## Reachable states and observations on the trace -/

/-- The states the manager can be in: `NewManager()` followed by any finite
sequence of `StartCapture`, `StopCapture` and `StopAll` calls with any
outcomes, the files changing freely in between. -/
inductive Reachable : State → Prop where
  | init (nextPid : Nat) (files : List String) : Reachable (NewManager nextPid files)
  | start (launchOk : Bool) (podName : String) (maxFiles : Int) (s : State) :
      Reachable s → Reachable (StartCapture launchOk podName maxFiles s)
  | stop (o : StopOutcome) (podName : String) (s : State) :
      Reachable s → Reachable (StopCapture o podName s)
  | stopAll (order : List String) (o : String → StopOutcome) (s : State) :
      order.Perm (keys s) → Reachable s → Reachable (StopAll order o s)
  | files (fs : List String) (s : State) :
      Reachable s → Reachable { s with files := fs }

/-- The handles of the processes that were started, oldest first. -/
def launchedPids (es : List Event) : List Nat :=
  es.filterMap (fun e => match e with
    | Event.cmdStart _ (some p) => some p
    | _ => none)

/-- The handles on which `Wait` was called, oldest first. -/
def waitedPids (es : List Event) : List Nat :=
  es.filterMap (fun e => match e with
    | Event.wait p _ => some p
    | _ => none)

/-- The handles to which the termination signal was sent, oldest first. -/
def signaledPids (es : List Event) : List Nat :=
  es.filterMap (fun e => match e with
    | Event.signal p _ => some p
    | _ => none)

/-- The paths on which `os.Remove` was called, oldest first. -/
def removeAttempts (es : List Event) : List String :=
  es.filterMap (fun e => match e with
    | Event.remove f _ => some f
    | _ => none)

/-- The trace of the removal loop over the files `fs`. -/
def removalEvents (o : StopOutcome) : List String → List Event
  | [] => []
  | f :: fs =>
    Event.remove f (o.removeOk f) :: Event.log (LogRecord.removedCaptureFile f) ::
      removalEvents o fs

/-- The trace of one run of `stopCaptureLocked` on a tracked key holding `cmd`,
when the glob returned `fs`. -/
def stopEvents (o : StopOutcome) (podName : String) (cmd : Cmd) (fs : List String) :
    List Event :=
  [Event.log (LogRecord.stoppingCapture podName cmd.pid)] ++
    (Event.signal cmd.pid o.signalOk ::
      (if o.signalOk then [] else [Event.log LogRecord.failedToSignal])) ++
    [Event.wait cmd.pid o.waitOk] ++ removalEvents o fs

/-- The argument vectors on which `cmd.Start()` was called, oldest first. -/
def launchAttempts (es : List Event) : List (List String) :=
  es.filterMap (fun e => match e with
    | Event.cmdStart args _ => some args
    | _ => none)

/-- What holds in every reachable state: the table is a map, no process handle
is held twice, handles are fresh, no process is waited on twice, a signal is
always followed by a wait, and the table holds exactly the processes that were
started and not yet waited on. -/
structure Inv (s : State) : Prop where
  keysNodup : (keys s).Nodup
  pidsNodup : (trackedPids s).Nodup
  launchedLt : ∀ p ∈ launchedPids s.events, p < s.nextPid
  waitedNodup : (waitedPids s.events).Nodup
  signaledEq : signaledPids s.events = waitedPids s.events
  waitedLaunched : ∀ p ∈ waitedPids s.events, p ∈ launchedPids s.events
  live : ∀ p, p ∈ trackedPids s ↔ p ∈ launchedPids s.events ∧ p ∉ waitedPids s.events

/-! ## Sample inputs -/

/-- Outcomes in which every system call succeeds. -/
def okOutcome : StopOutcome :=
  { signalOk := true, waitOk := true, removeOk := fun _ => true }

/-- Outcomes in which the signal, the wait and every removal fail. -/
def failOutcome : StopOutcome :=
  { signalOk := false, waitOk := false, removeOk := fun _ => false }

/-- Outcomes in which only the removal of the first rotated file of `web` fails. -/
def mixedOutcome : StopOutcome :=
  { signalOk := false, waitOk := true,
    removeOk := fun f => decide (f ≠ "/capture/capture-web.pcap0") }

/-- A fresh manager on which `web` and then `db` were started. -/
def twoCaptures : State :=
  StartCapture true "db" 2 (StartCapture true "web" 3 (NewManager 100 []))

/-- The state `twoCaptures` after the capture of `web` wrote three files. -/
def twoCapturesWithFiles : State :=
  { twoCaptures with
    files := ["capture-web.pcap0", "capture-web.pcap1", "capture-web.pcap2"] }

/-- A fresh manager on which `web` was started and wrote one file. -/
def oneCaptureWithFile : State :=
  { StartCapture true "web" 3 (NewManager 100 []) with
    files := ["capture-web.pcap0"] }

/-- A fresh manager on which `web` and `web.pcap` were started, the second of
which wrote one file. -/
def overlappingCaptures : State :=
  { StartCapture true "web.pcap" 2 (StartCapture true "web" 3 (NewManager 100 [])) with
    files := ["capture-web.pcap.pcap0"] }

/-- A pod of the local node carrying the capture annotation with value `v`. -/
def annotatedPod (v : String) : Pod :=
  { name := "web", ns := "default", annotations := [("app", "web"), (annotationKey, v)] }

/-- A pod of the local node without the capture annotation. -/
def plainPod : Pod :=
  { name := "web", ns := "default", annotations := [("app", "web")] }

/-- The test that `Glob` applies to an entry of `/capture`. -/
def globPred (pattern : String) (n : String) : Bool :=
  (Match pattern "").isSome && decide ((Split pattern.data).1 = captureDir.data) &&
    (Match (String.mk (Split pattern.data).2) n == some true)

/-! ## The table as a map -/

theorem mapLookup_mapDelete_self (k : String) (m : List (String × Cmd)) :
    mapLookup k (mapDelete k m) = none := by
  induction m with
  | nil => rfl
  | cons e m ih =>
    obtain ⟨k1, c⟩ := e
    by_cases h : k1 = k
    · simpa [mapDelete, h] using ih
    · simpa [mapDelete, h, mapLookup] using ih

theorem mapLookup_mapDelete_ne {k k2 : String} (h : k2 ≠ k) (m : List (String × Cmd)) :
    mapLookup k2 (mapDelete k m) = mapLookup k2 m := by
  induction m with
  | nil => rfl
  | cons e m ih =>
    obtain ⟨k1, c⟩ := e
    by_cases h1 : k1 = k
    · subst h1
      have h2 : ¬ k1 = k2 := fun h3 => h h3.symm
      simpa [mapDelete, mapLookup, h2] using ih
    · by_cases h2 : k1 = k2
      · subst h2
        simp [mapDelete, mapLookup, h1]
      · simpa [mapDelete, mapLookup, h1, h2] using ih

theorem mapLookup_mem {k : String} {c : Cmd} {m : List (String × Cmd)}
    (h : mapLookup k m = some c) : (k, c) ∈ m := by
  induction m with
  | nil => simp [mapLookup] at h
  | cons e m ih =>
    obtain ⟨k1, c1⟩ := e
    by_cases h1 : k1 = k
    · simp [mapLookup, h1] at h
      simp [h1, h]
    · simp [mapLookup, h1] at h
      exact List.mem_cons_of_mem _ (ih h)

theorem mapLookup_none_iff (k : String) (m : List (String × Cmd)) :
    mapLookup k m = none ↔ k ∉ m.map Prod.fst := by
  induction m with
  | nil => simp [mapLookup]
  | cons e m ih =>
    obtain ⟨k1, c1⟩ := e
    by_cases h1 : k1 = k
    · simp [mapLookup, h1]
    · have h2 : ¬ k = k1 := fun h3 => h1 h3.symm
      simp [mapLookup, h1, h2, ih]

theorem mapLookup_of_mem {k : String} {c : Cmd} {m : List (String × Cmd)}
    (hn : (m.map Prod.fst).Nodup) (h : (k, c) ∈ m) : mapLookup k m = some c := by
  induction m with
  | nil => simp at h
  | cons e m ih =>
    obtain ⟨k1, c1⟩ := e
    simp only [List.map_cons, List.nodup_cons] at hn
    rcases List.mem_cons.mp h with h1 | h1
    · cases h1
      simp [mapLookup]
    · have hk : k ∈ m.map Prod.fst := List.mem_map.mpr ⟨(k, c), h1, rfl⟩
      have h2 : ¬ k1 = k := fun h3 => hn.1 (h3 ▸ hk)
      simpa [mapLookup, h2] using ih hn.2 h1

theorem mapDelete_of_not_mem {k : String} {m : List (String × Cmd)}
    (h : k ∉ m.map Prod.fst) : mapDelete k m = m := by
  unfold mapDelete
  rw [List.filter_eq_self]
  intro e he
  have : e.1 ≠ k := fun h1 => h (List.mem_map.mpr ⟨e, he, h1⟩)
  simpa using this

/-! ## Effect of the operations on each component of the state -/

theorem foldl_removeFile_captures (o : StopOutcome) (fs : List String) (s : State) :
    (fs.foldl (removeFile o) s).captures = s.captures := by
  induction fs generalizing s with
  | nil => rfl
  | cons f fs ih => simp [List.foldl_cons, ih, removeFile]

theorem foldl_removeFile_nextPid (o : StopOutcome) (fs : List String) (s : State) :
    (fs.foldl (removeFile o) s).nextPid = s.nextPid := by
  induction fs generalizing s with
  | nil => rfl
  | cons f fs ih => simp [List.foldl_cons, ih, removeFile]

theorem foldl_removeFile_events (o : StopOutcome) (fs : List String) (s : State) :
    (fs.foldl (removeFile o) s).events = s.events ++ removalEvents o fs := by
  induction fs generalizing s with
  | nil => simp [removalEvents]
  | cons f fs ih => simp [List.foldl_cons, ih, removeFile, removalEvents]

theorem mem_foldl_removeFile_files (o : StopOutcome) (fs : List String) (s : State)
    (g : String) :
    g ∈ (fs.foldl (removeFile o) s).files ↔
      g ∈ s.files ∧ ¬ (captureDir ++ g ∈ fs ∧ o.removeOk (captureDir ++ g) = true) := by
  induction fs generalizing s with
  | nil => simp
  | cons f fs ih =>
    rw [List.foldl_cons, ih]
    by_cases hf : o.removeOk f = true
    · by_cases hg : captureDir ++ g = f
      · subst hg
        simp [removeFile, hf]
      · simp [removeFile, hf, hg]
    · by_cases hg : captureDir ++ g = f
      · subst hg
        simp [removeFile, hf]
      · simp [removeFile, hf, hg]

theorem stopCaptureLocked_none {o : StopOutcome} {k : String} {s : State}
    (h : mapLookup k s.captures = none) : stopCaptureLocked o k s = s := by
  simp [stopCaptureLocked, h]

theorem stopCaptureLocked_captures (o : StopOutcome) (k : String) (s : State) :
    (stopCaptureLocked o k s).captures = mapDelete k s.captures := by
  unfold stopCaptureLocked
  cases h : mapLookup k s.captures with
  | none =>
    simp only
    rw [mapDelete_of_not_mem ((mapLookup_none_iff k s.captures).mp h)]
  | some c => simp [foldl_removeFile_captures, State.emit]

theorem stopCaptureLocked_nextPid (o : StopOutcome) (k : String) (s : State) :
    (stopCaptureLocked o k s).nextPid = s.nextPid := by
  unfold stopCaptureLocked
  cases h : mapLookup k s.captures with
  | none => rfl
  | some c => simp [foldl_removeFile_nextPid, State.emit]

theorem stopCaptureLocked_events {o : StopOutcome} {k : String} {s : State} {c : Cmd}
    (h : mapLookup k s.captures = some c) :
    (stopCaptureLocked o k s).events =
      s.events ++ stopEvents o k c (Glob (capturePattern k) s.files) := by
  simp [stopCaptureLocked, h, foldl_removeFile_events, State.emit, stopEvents]

theorem mem_stopCaptureLocked_files {o : StopOutcome} {k : String} {s : State} {c : Cmd}
    (h : mapLookup k s.captures = some c) (g : String) :
    g ∈ (stopCaptureLocked o k s).files ↔
      g ∈ s.files ∧
        ¬ (captureDir ++ g ∈ Glob (capturePattern k) s.files ∧
          o.removeOk (captureDir ++ g) = true) := by
  simp [stopCaptureLocked, h, mem_foldl_removeFile_files, State.emit]

/-! ## Observations on the trace of one operation -/

theorem launchedPids_append (a b : List Event) :
    launchedPids (a ++ b) = launchedPids a ++ launchedPids b := by
  simp [launchedPids, List.filterMap_append]

theorem waitedPids_append (a b : List Event) :
    waitedPids (a ++ b) = waitedPids a ++ waitedPids b := by
  simp [waitedPids, List.filterMap_append]

theorem signaledPids_append (a b : List Event) :
    signaledPids (a ++ b) = signaledPids a ++ signaledPids b := by
  simp [signaledPids, List.filterMap_append]

theorem removeAttempts_append (a b : List Event) :
    removeAttempts (a ++ b) = removeAttempts a ++ removeAttempts b := by
  simp [removeAttempts, List.filterMap_append]

theorem launchedPids_removalEvents (o : StopOutcome) (fs : List String) :
    launchedPids (removalEvents o fs) = [] := by
  induction fs with
  | nil => rfl
  | cons f fs ih => simpa [removalEvents, launchedPids] using ih

theorem waitedPids_removalEvents (o : StopOutcome) (fs : List String) :
    waitedPids (removalEvents o fs) = [] := by
  induction fs with
  | nil => rfl
  | cons f fs ih => simpa [removalEvents, waitedPids] using ih

theorem signaledPids_removalEvents (o : StopOutcome) (fs : List String) :
    signaledPids (removalEvents o fs) = [] := by
  induction fs with
  | nil => rfl
  | cons f fs ih => simpa [removalEvents, signaledPids] using ih

theorem removeAttempts_removalEvents (o : StopOutcome) (fs : List String) :
    removeAttempts (removalEvents o fs) = fs := by
  induction fs with
  | nil => rfl
  | cons f fs ih => simpa [removalEvents, removeAttempts] using ih

theorem launchedPids_stopEvents (o : StopOutcome) (k : String) (c : Cmd) (fs : List String) :
    launchedPids (stopEvents o k c fs) = [] := by
  unfold stopEvents
  rw [launchedPids_append, launchedPids_removalEvents]
  cases o.signalOk <;> simp [launchedPids]

theorem waitedPids_stopEvents (o : StopOutcome) (k : String) (c : Cmd) (fs : List String) :
    waitedPids (stopEvents o k c fs) = [c.pid] := by
  unfold stopEvents
  rw [waitedPids_append, waitedPids_removalEvents]
  cases o.signalOk <;> simp [waitedPids]

theorem signaledPids_stopEvents (o : StopOutcome) (k : String) (c : Cmd) (fs : List String) :
    signaledPids (stopEvents o k c fs) = [c.pid] := by
  unfold stopEvents
  rw [signaledPids_append, signaledPids_removalEvents]
  cases o.signalOk <;> simp [signaledPids]

theorem removeAttempts_stopEvents (o : StopOutcome) (k : String) (c : Cmd) (fs : List String) :
    removeAttempts (stopEvents o k c fs) = fs := by
  unfold stopEvents
  rw [removeAttempts_append, removeAttempts_removalEvents]
  cases o.signalOk <;> simp [removeAttempts]

/-! ## The invariant of the manager -/

theorem inv_NewManager (nextPid : Nat) (files : List String) :
    Inv (NewManager nextPid files) := by
  constructor <;> simp [NewManager, keys, trackedPids, launchedPids, waitedPids, signaledPids]

theorem inv_files (fs : List String) (s : State) (h : Inv s) :
    Inv { s with files := fs } :=
  ⟨h.keysNodup, h.pidsNodup, h.launchedLt, h.waitedNodup, h.signaledEq, h.waitedLaunched,
    h.live⟩

theorem inv_StartCapture (launchOk : Bool) (k : String) (n : Int) (s : State) (h : Inv s) :
    Inv (StartCapture launchOk k n s) := by
  unfold StartCapture
  cases hl : mapLookup k s.captures with
  | some c => simpa using h
  | none =>
    have hk : k ∉ s.captures.map Prod.fst := (mapLookup_none_iff k s.captures).mp hl
    have hfresh : s.nextPid ∉ launchedPids s.events := fun hm =>
      Nat.lt_irrefl _ (h.launchedLt _ hm)
    have hnw : s.nextPid ∉ waitedPids s.events := fun hm =>
      hfresh (h.waitedLaunched _ hm)
    have hnt : s.nextPid ∉ trackedPids s := fun hm => hfresh ((h.live _).mp hm).1
    cases launchOk with
    | false =>
      simp only [Option.isSome_none, Bool.false_eq_true, if_false]
      refine ⟨h.keysNodup, h.pidsNodup, ?_, ?_, ?_, ?_, ?_⟩
      · simpa [State.emit, launchedPids_append, launchedPids] using h.launchedLt
      · simpa [State.emit, waitedPids_append, waitedPids] using h.waitedNodup
      · simpa [State.emit, waitedPids_append, signaledPids_append, waitedPids, signaledPids]
          using h.signaledEq
      · simpa [State.emit, waitedPids_append, launchedPids_append, waitedPids, launchedPids]
          using h.waitedLaunched
      · simpa [State.emit, waitedPids_append, launchedPids_append, waitedPids, launchedPids,
          trackedPids] using h.live
    | true =>
      simp only [Option.isSome_none, Bool.false_eq_true, if_false, if_true]
      refine ⟨?_, ?_, ?_, ?_, ?_, ?_, ?_⟩
      · have := h.keysNodup
        simp only [keys] at this ⊢
        simp [mapInsert, mapDelete_of_not_mem hk, hk, this]
      · have := h.pidsNodup
        simp only [trackedPids] at this hnt ⊢
        simp only [mapInsert, mapDelete_of_not_mem hk, List.map_cons, List.nodup_cons]
        exact ⟨hnt, this⟩
      · intro p hp
        simp only [launchedPids_append, List.mem_append] at hp
        rcases hp with hp | hp
        · exact Nat.lt_succ_of_lt (h.launchedLt p hp)
        · simp [launchedPids] at hp
          subst hp
          exact Nat.lt_succ_self _
      · simpa [waitedPids_append, waitedPids] using h.waitedNodup
      · simpa [waitedPids_append, signaledPids_append, waitedPids, signaledPids]
          using h.signaledEq
      · intro p hp
        have hp1 : p ∈ waitedPids s.events := by
          simpa [waitedPids_append, waitedPids] using hp
        simp only [launchedPids_append, List.mem_append]
        exact Or.inl (h.waitedLaunched p hp1)
      · intro p
        have hw : waitedPids (s.events ++
            [Event.cmdStart (tcpdumpArgs k n) (some s.nextPid),
             Event.log (LogRecord.captureStarted k s.nextPid (captureFile k))]) =
            waitedPids s.events := by
          simp [waitedPids_append, waitedPids]
        have hla : launchedPids (s.events ++
            [Event.cmdStart (tcpdumpArgs k n) (some s.nextPid),
             Event.log (LogRecord.captureStarted k s.nextPid (captureFile k))]) =
            launchedPids s.events ++ [s.nextPid] := by
          simp [launchedPids_append, launchedPids]
        have ht : trackedPids { s with
            captures := mapInsert k { pid := s.nextPid, args := tcpdumpArgs k n } s.captures
            nextPid := s.nextPid + 1
            events := s.events ++
              [Event.cmdStart (tcpdumpArgs k n) (some s.nextPid),
               Event.log (LogRecord.captureStarted k s.nextPid (captureFile k))] } =
            s.nextPid :: trackedPids s := by
          simp [trackedPids, mapInsert, mapDelete_of_not_mem hk]
        rw [ht]
        simp only [hw, hla, List.mem_cons, List.mem_append, List.not_mem_nil, or_false]
        constructor
        · rintro (hp | hp)
          · subst hp
            exact ⟨Or.inr rfl, hnw⟩
          · exact ⟨Or.inl ((h.live p).mp hp).1, ((h.live p).mp hp).2⟩
        · rintro ⟨hp | hp, hnot⟩
          · exact Or.inr ((h.live p).mpr ⟨hp, hnot⟩)
          · exact Or.inl hp

theorem mem_trackedPids_mapDelete {k : String} {c : Cmd} {m : List (String × Cmd)}
    (hk : (m.map Prod.fst).Nodup) (hp : (m.map (fun e => e.2.pid)).Nodup)
    (hl : mapLookup k m = some c) (p : Nat) :
    p ∈ (mapDelete k m).map (fun e => e.2.pid) ↔
      p ∈ m.map (fun e => e.2.pid) ∧ p ≠ c.pid := by
  have hkc : (k, c) ∈ m := mapLookup_mem hl
  constructor
  · intro h
    obtain ⟨e, he, hep⟩ := List.mem_map.mp h
    have he2 : e ∈ m ∧ e.1 ≠ k := by simpa [mapDelete] using he
    refine ⟨List.mem_map.mpr ⟨e, he2.1, hep⟩, ?_⟩
    intro hpc
    have heq : e = (k, c) :=
      List.inj_on_of_nodup_map hp he2.1 hkc (by simp [hep, hpc])
    exact he2.2 (by rw [heq])
  · rintro ⟨h, hne⟩
    obtain ⟨e, he, hep⟩ := List.mem_map.mp h
    have hek : e.1 ≠ k := by
      intro hek
      have heq : e = (k, c) := List.inj_on_of_nodup_map hk he hkc (by simp [hek])
      exact hne (by rw [← hep, heq])
    exact List.mem_map.mpr ⟨e, by simpa [mapDelete] using ⟨he, hek⟩, hep⟩

theorem inv_stopCaptureLocked (o : StopOutcome) (k : String) (s : State) (h : Inv s) :
    Inv (stopCaptureLocked o k s) := by
  cases hl : mapLookup k s.captures with
  | none => rw [stopCaptureLocked_none hl]; exact h
  | some c =>
    have hc : c.pid ∈ trackedPids s :=
      List.mem_map.mpr ⟨(k, c), mapLookup_mem hl, rfl⟩
    have hcl := (h.live c.pid).mp hc
    have hev := stopCaptureLocked_events (o := o) hl
    have hcap := stopCaptureLocked_captures o k s
    refine ⟨?_, ?_, ?_, ?_, ?_, ?_, ?_⟩
    · simp only [keys, hcap]
      exact h.keysNodup.sublist ((List.filter_sublist _).map _)
    · simp only [trackedPids, hcap]
      exact h.pidsNodup.sublist ((List.filter_sublist _).map _)
    · intro p hp
      rw [hev, launchedPids_append, launchedPids_stopEvents, List.append_nil] at hp
      rw [stopCaptureLocked_nextPid]
      exact h.launchedLt p hp
    · rw [hev, waitedPids_append, waitedPids_stopEvents]
      exact List.Nodup.append h.waitedNodup (List.nodup_singleton _)
        (by simpa using hcl.2)
    · rw [hev, waitedPids_append, waitedPids_stopEvents, signaledPids_append,
        signaledPids_stopEvents, h.signaledEq]
    · intro p hp
      rw [hev, waitedPids_append, waitedPids_stopEvents] at hp
      rw [hev, launchedPids_append, launchedPids_stopEvents, List.append_nil]
      rcases List.mem_append.mp hp with hp | hp
      · exact h.waitedLaunched p hp
      · simp only [List.mem_singleton] at hp
        exact hp ▸ hcl.1
    · intro p
      rw [hev, waitedPids_append, waitedPids_stopEvents, launchedPids_append,
        launchedPids_stopEvents, List.append_nil]
      simp only [trackedPids, hcap]
      rw [mem_trackedPids_mapDelete h.keysNodup h.pidsNodup hl p]
      have hlive := h.live p
      simp only [trackedPids] at hlive
      rw [hlive]
      simp only [List.mem_append, List.mem_singleton]
      tauto

theorem StopAll_cons (k : String) (order : List String) (o : String → StopOutcome)
    (s : State) :
    StopAll (k :: order) o s = StopAll order o (stopCaptureLocked (o k) k s) := by
  cases hl : mapLookup k s.captures with
  | none => simp [StopAll, List.foldl_cons, hl, stopCaptureLocked_none hl]
  | some c => simp [StopAll, List.foldl_cons, hl]

theorem inv_StopAll (order : List String) (o : String → StopOutcome) (s : State)
    (h : Inv s) : Inv (StopAll order o s) := by
  induction order generalizing s with
  | nil => exact h
  | cons k order ih =>
    rw [StopAll_cons]
    exact ih _ (inv_stopCaptureLocked (o k) k s h)

theorem inv_of_reachable {s : State} (h : Reachable s) : Inv s := by
  induction h with
  | init nextPid files => exact inv_NewManager nextPid files
  | start launchOk podName maxFiles s _ ih => exact inv_StartCapture launchOk podName maxFiles s ih
  | stop o podName s _ ih => exact inv_stopCaptureLocked o podName s ih
  | stopAll order o s _ _ ih => exact inv_StopAll order o s ih
  | files fs s _ ih => exact inv_files fs s ih

theorem StopAll_captures (order : List String) (o : String → StopOutcome) (s : State) :
    (StopAll order o s).captures = s.captures.filter (fun e => decide (e.1 ∉ order)) := by
  induction order generalizing s with
  | nil => simp [StopAll]
  | cons k order ih =>
    rw [StopAll_cons, ih, stopCaptureLocked_captures, mapDelete, List.filter_filter]
    congr 1
    funext e
    by_cases h1 : e.1 = k <;> by_cases h2 : e.1 ∈ order <;> simp [h1, h2]

theorem launchedPids_StopAll (order : List String) (o : String → StopOutcome) (s : State) :
    launchedPids (StopAll order o s).events = launchedPids s.events := by
  induction order generalizing s with
  | nil => rfl
  | cons k order ih =>
    rw [StopAll_cons, ih]
    cases hl : mapLookup k s.captures with
    | none => rw [stopCaptureLocked_none hl]
    | some c =>
      rw [stopCaptureLocked_events hl, launchedPids_append, launchedPids_stopEvents,
        List.append_nil]

theorem launchAttempts_append (a b : List Event) :
    launchAttempts (a ++ b) = launchAttempts a ++ launchAttempts b := by
  simp [launchAttempts, List.filterMap_append]

theorem launchAttempts_removalEvents (o : StopOutcome) (fs : List String) :
    launchAttempts (removalEvents o fs) = [] := by
  induction fs with
  | nil => rfl
  | cons f fs ih => simpa [removalEvents, launchAttempts] using ih

theorem launchAttempts_stopEvents (o : StopOutcome) (k : String) (c : Cmd) (fs : List String) :
    launchAttempts (stopEvents o k c fs) = [] := by
  unfold stopEvents
  rw [launchAttempts_append, launchAttempts_removalEvents]
  cases o.signalOk <;> simp [launchAttempts]

theorem StartCapture_of_tracked {k : String} {s : State}
    (h : IsCapturing s k = true) (launchOk : Bool) (n : Int) :
    StartCapture launchOk k n s = s := by
  unfold IsCapturing at h
  simp [StartCapture, h]

theorem StartCapture_launched_length (launchOk : Bool) (k : String) (n : Int) (s : State) :
    (launchedPids (StartCapture launchOk k n s).events).length ≤
      (launchedPids s.events).length + 1 := by
  unfold StartCapture
  cases hl : mapLookup k s.captures with
  | some c => simp
  | none =>
    cases launchOk <;> simp [State.emit, launchedPids_append, launchedPids]

/-! ## The glob of a pod -/

theorem Glob_eq_filter (pattern : String) (names : List String) :
    Glob pattern names = (names.filter (globPred pattern)).map (fun n => captureDir ++ n) := by
  unfold Glob globPred
  cases hm : Match pattern "" with
  | none => simp
  | some b =>
    by_cases hd : (Split pattern.data).1 = captureDir.data
    · simp [hd]
    · simp [hd]

theorem Split_of_no_sep (f : List Char) (hf : '/' ∉ f) : Split f = ([], f) := by
  induction f with
  | nil => rfl
  | cons c cs ih =>
    have h1 : '/' ∉ cs := fun h => hf (List.mem_cons_of_mem _ h)
    have h2 : ¬ c = '/' := fun h => hf (h ▸ List.mem_cons_self _ _)
    simp [Split, ih h1, h2]

theorem Split_append_sep (d f : List Char) (hf : '/' ∉ f) :
    Split (d ++ '/' :: f) = (d ++ ['/'], f) := by
  induction d with
  | nil => simp [Split, Split_of_no_sep f hf]
  | cons c cs ih => simp [Split, ih]

theorem capturePattern_data (K : String) :
    (capturePattern K).data =
      ['/', 'c', 'a', 'p', 't', 'u', 'r', 'e'] ++ '/' :: (namePattern K).data := by
  simp only [capturePattern, namePattern, String.data_append]
  rfl

theorem namePattern_no_sep (K : String) (hK : '/' ∉ K.data) : '/' ∉ (namePattern K).data := by
  simp only [namePattern, String.data_append, List.mem_append, not_or]
  exact ⟨⟨by decide, hK⟩, by decide⟩

theorem Split_capturePattern (K : String) (hK : '/' ∉ K.data) :
    Split (capturePattern K).data = (captureDir.data, (namePattern K).data) := by
  rw [capturePattern_data, Split_append_sep _ _ (namePattern_no_sep K hK)]
  rfl

theorem parseTerms_capturePattern (K : String) :
    parseTerms ((capturePattern K).data.length + 1) (capturePattern K).data =
      (parseTerms ((namePattern K).data.length + 1) (namePattern K).data).map
        (fun ts => Term.lit '/' :: Term.lit 'c' :: Term.lit 'a' :: Term.lit 'p' ::
          Term.lit 't' :: Term.lit 'u' :: Term.lit 'r' :: Term.lit 'e' :: Term.lit '/' :: ts) := by
  rw [capturePattern_data]
  simp [parseTerms, Option.map_map, Function.comp_def]

theorem globPred_capturePattern (K : String) (hK : '/' ∉ K.data) (n : String) :
    globPred (capturePattern K) n = (Match (namePattern K) n == some true) := by
  unfold globPred
  rw [Split_capturePattern K hK]
  have hw : (Match (capturePattern K) "").isSome = (Match (namePattern K) n).isSome := by
    unfold Match
    rw [parseTerms_capturePattern]
    cases parseTerms ((namePattern K).data.length + 1) (namePattern K).data <;> rfl
  rw [hw]
  cases hm : Match (namePattern K) n with
  | none => simp
  | some b => simp

theorem globPred_false_after_stop {o : StopOutcome} {K : String} {s : State}
    (h : IsCapturing s K = true)
    (hr : ∀ f ∈ Glob (capturePattern K) s.files, o.removeOk f = true) :
    ∀ n ∈ (StopCapture o K s).files, globPred (capturePattern K) n = false := by
  intro n hn
  unfold IsCapturing at h
  obtain ⟨c, hc⟩ := Option.isSome_iff_exists.mp h
  unfold StopCapture at hn
  rw [mem_stopCaptureLocked_files hc] at hn
  cases hq : globPred (capturePattern K) n with
  | false => rfl
  | true =>
    exfalso
    have hg : captureDir ++ n ∈ Glob (capturePattern K) s.files := by
      rw [Glob_eq_filter]
      exact List.mem_map.mpr ⟨n, List.mem_filter.mpr ⟨hn.1, hq⟩, rfl⟩
    exact hn.2 ⟨hg, hr _ hg⟩

/-! ## The claims -/

/-- C1. At-most-one and no-leak invariant: in every state reachable from
`NewManager()` by `StartCapture`, `StopCapture` and `StopAll` calls with
arbitrary launch, signal, wait, glob and removal outcomes, the table has no
key twice (so a key has at most one tracked process), no process is held under
two keys, and a process was started and not yet waited on exactly when it is
held in the table. -/
theorem at_most_one_no_leak (s : State) (h : Reachable s) :
    (keys s).Nodup ∧
    (∀ k c1 c2, (k, c1) ∈ s.captures → (k, c2) ∈ s.captures → c1 = c2) ∧
    (trackedPids s).Nodup ∧
    (∀ p, (p ∈ launchedPids s.events ∧ p ∉ waitedPids s.events) ↔ p ∈ trackedPids s) := by
  have hi := inv_of_reachable h
  refine ⟨hi.keysNodup, ?_, hi.pidsNodup, fun p => (hi.live p).symm⟩
  intro k c1 c2 h1 h2
  have e1 := mapLookup_of_mem hi.keysNodup h1
  have e2 := mapLookup_of_mem hi.keysNodup h2
  rw [e1] at e2
  exact Option.some.inj e2

/-- Witness of C1: after starting `web` and `db` and stopping `web` with every
system call failing, exactly the process of `db` is started and not waited
on. -/
theorem at_most_one_no_leak_witness :
    Reachable (StopCapture failOutcome "web" twoCaptures) ∧
    ((keys (StopCapture failOutcome "web" twoCaptures)).Nodup ∧
    (∀ k c1 c2, (k, c1) ∈ (StopCapture failOutcome "web" twoCaptures).captures →
      (k, c2) ∈ (StopCapture failOutcome "web" twoCaptures).captures → c1 = c2) ∧
    (trackedPids (StopCapture failOutcome "web" twoCaptures)).Nodup ∧
    (∀ p, (p ∈ launchedPids (StopCapture failOutcome "web" twoCaptures).events ∧
        p ∉ waitedPids (StopCapture failOutcome "web" twoCaptures).events) ↔
      p ∈ trackedPids (StopCapture failOutcome "web" twoCaptures))) :=
  ⟨Reachable.stop _ _ _ (Reachable.start _ _ _ _ (Reachable.start _ _ _ _
      (Reachable.init 100 []))),
    at_most_one_no_leak (StopCapture failOutcome "web" twoCaptures)
      (Reachable.stop _ _ _ (Reachable.start _ _ _ _ (Reachable.start _ _ _ _
        (Reachable.init 100 []))))⟩

/-- C2. Idempotent start: on a state where `K` has an entry, `StartCapture`
changes nothing (no launch, same table); two calls in a row start at most one
process, and when the first call created the entry the second call leaves the
state of the first, the entry still holding the process started with the
first `maxFiles`. -/
theorem idempotent_start (s : State) (K : String) (n n2 : Int) (ok ok2 : Bool) :
    (IsCapturing s K = true → StartCapture ok2 K n2 s = s) ∧
    (launchedPids (StartCapture ok2 K n2 (StartCapture ok K n s)).events).length ≤
      (launchedPids s.events).length + 1 ∧
    (IsCapturing (StartCapture ok K n s) K = true →
      StartCapture ok2 K n2 (StartCapture ok K n s) = StartCapture ok K n s) ∧
    (IsCapturing s K = false → ok = true →
      StartCapture ok2 K n2 (StartCapture ok K n s) = StartCapture ok K n s ∧
      mapLookup K (StartCapture ok2 K n2 (StartCapture ok K n s)).captures =
        some { pid := s.nextPid, args := tcpdumpArgs K n } ∧
      launchedPids (StartCapture ok2 K n2 (StartCapture ok K n s)).events =
        launchedPids s.events ++ [s.nextPid]) := by
  refine ⟨fun h => StartCapture_of_tracked h ok2 n2, ?_,
    fun h => StartCapture_of_tracked h ok2 n2, ?_⟩
  · by_cases h1 : IsCapturing (StartCapture ok K n s) K = true
    · rw [StartCapture_of_tracked h1]
      exact StartCapture_launched_length ok K n s
    · have h2 : IsCapturing s K = false := by
        cases h3 : IsCapturing s K with
        | false => rfl
        | true => rw [StartCapture_of_tracked h3] at h1; exact absurd h3 h1
      have h4 : ok = false := by
        cases ok with
        | false => rfl
        | true =>
          exfalso
          apply h1
          unfold IsCapturing at h2 ⊢
          simp at h2
          simp [StartCapture, h2, mapInsert, mapLookup]
      subst h4
      have h5 : launchedPids (StartCapture false K n s).events = launchedPids s.events := by
        unfold IsCapturing at h2
        simp at h2
        simp [StartCapture, h2, State.emit, launchedPids_append, launchedPids]
      have h6 := StartCapture_launched_length ok2 K n2 (StartCapture false K n s)
      rw [h5] at h6
      exact h6
  · intro h hok
    subst hok
    unfold IsCapturing at h
    simp at h
    have h1 : IsCapturing (StartCapture true K n s) K = true := by
      simp [IsCapturing, StartCapture, h, mapInsert, mapLookup]
    rw [StartCapture_of_tracked h1]
    refine ⟨rfl, ?_, ?_⟩
    · simp [StartCapture, h, mapInsert, mapLookup]
    · simp [StartCapture, h, launchedPids_append, launchedPids]

/-- Witness of C2 on a fresh manager: the second start of `web` changes
nothing. -/
theorem idempotent_start_witness :
    StartCapture false "web" 7 (StartCapture true "web" 3 (NewManager 100 [])) =
        StartCapture true "web" 3 (NewManager 100 []) ∧
    mapLookup "web"
        (StartCapture false "web" 7 (StartCapture true "web" 3 (NewManager 100 []))).captures =
      some { pid := 100, args := tcpdumpArgs "web" 3 } ∧
    launchedPids
        (StartCapture false "web" 7 (StartCapture true "web" 3 (NewManager 100 []))).events =
      [100] :=
  (idempotent_start (NewManager 100 []) "web" 3 7 true false).2.2.2 (by decide) rfl

/-- C3. Reconciliation decision table of `handlePod`: with the annotation
present and the pod not capturing it is `StartCapture` with the parsed
`maxFiles` (one launch attempt, no wait); with the annotation absent and the
pod capturing it is `StopCapture` (one wait, no launch attempt); in the two
other cases the state is returned unchanged, whatever the annotation value. -/
theorem handlePod_decision (launchOk : Bool) (o : StopOutcome) (pod : Pod) (s : State) :
    (∀ v, annotationLookup annotationKey pod.annotations = some v →
      IsCapturing s pod.name = false →
      handlePod launchOk o pod s =
        StartCapture launchOk pod.name (parseMaxFiles v)
          (s.emit [Event.log (LogRecord.startingCapture pod.name pod.ns (parseMaxFiles v))]) ∧
      launchAttempts (handlePod launchOk o pod s).events =
        launchAttempts s.events ++ [tcpdumpArgs pod.name (parseMaxFiles v)] ∧
      waitedPids (handlePod launchOk o pod s).events = waitedPids s.events) ∧
    (∀ c, annotationLookup annotationKey pod.annotations = none →
      mapLookup pod.name s.captures = some c →
      handlePod launchOk o pod s =
        StopCapture o pod.name
          (s.emit [Event.log (LogRecord.annotationRemoved pod.name pod.ns)]) ∧
      launchAttempts (handlePod launchOk o pod s).events = launchAttempts s.events ∧
      waitedPids (handlePod launchOk o pod s).events = waitedPids s.events ++ [c.pid] ∧
      IsCapturing (handlePod launchOk o pod s) pod.name = false) ∧
    (∀ v, annotationLookup annotationKey pod.annotations = some v →
      IsCapturing s pod.name = true → handlePod launchOk o pod s = s) ∧
    (annotationLookup annotationKey pod.annotations = none →
      IsCapturing s pod.name = false → handlePod launchOk o pod s = s) := by
  refine ⟨?_, ?_, ?_, ?_⟩
  · intro v hv hc
    have hl : mapLookup pod.name s.captures = none := by
      unfold IsCapturing at hc
      simpa using hc
    have he : handlePod launchOk o pod s =
        StartCapture launchOk pod.name (parseMaxFiles v)
          (s.emit [Event.log
            (LogRecord.startingCapture pod.name pod.ns (parseMaxFiles v))]) := by
      simp [handlePod, hv, hc]
    rw [he]
    refine ⟨rfl, ?_, ?_⟩
    · cases launchOk <;>
        simp [StartCapture, State.emit, hl, launchAttempts_append, launchAttempts]
    · cases launchOk <;>
        simp [StartCapture, State.emit, hl, waitedPids_append, waitedPids]
  · intro c hv hl
    have hc : IsCapturing s pod.name = true := by simp [IsCapturing, hl]
    have he : handlePod launchOk o pod s =
        StopCapture o pod.name
          (s.emit [Event.log (LogRecord.annotationRemoved pod.name pod.ns)]) := by
      simp [handlePod, hv, hc]
    have hl2 : mapLookup pod.name
        (s.emit [Event.log (LogRecord.annotationRemoved pod.name pod.ns)]).captures =
          some c := hl
    rw [he]
    unfold StopCapture
    rw [stopCaptureLocked_events hl2]
    refine ⟨rfl, ?_, ?_, ?_⟩
    · rw [launchAttempts_append, launchAttempts_stopEvents, List.append_nil]
      show launchAttempts (s.events ++ [Event.log _]) = launchAttempts s.events
      rw [launchAttempts_append]
      simp [launchAttempts]
    · rw [waitedPids_append, waitedPids_stopEvents]
      show waitedPids (s.events ++ [Event.log _]) ++ [c.pid] = waitedPids s.events ++ [c.pid]
      rw [waitedPids_append]
      simp [waitedPids]
    · simp [IsCapturing, stopCaptureLocked_captures, mapLookup_mapDelete_self]
  · intro v hv hc
    simp [handlePod, hv, hc]
  · intro hv hc
    simp [handlePod, hv, hc]

/-- Witness of C3: an update carrying the value 5 while `web` captures with 3
files changes nothing, and removing the annotation stops the capture. -/
theorem handlePod_decision_witness :
    handlePod true okOutcome (annotatedPod "5") twoCapturesWithFiles = twoCapturesWithFiles ∧
    IsCapturing (handlePod true okOutcome plainPod twoCapturesWithFiles) "web" = false :=
  ⟨(handlePod_decision true okOutcome (annotatedPod "5") twoCapturesWithFiles).2.2.1 "5"
      (by decide) (by decide),
    ((handlePod_decision true okOutcome plainPod twoCapturesWithFiles).2.1
      { pid := 100, args := tcpdumpArgs "web" 3 } (by decide) (by decide)).2.2.2⟩

/-- C4 as stated fails: on a reachable state where `web` is tracked and its
first rotated file exists, `StopCapture` with a failing `os.Remove` leaves that
file in the capture directory, and its name matches the pattern of `web`. -/
theorem cleanup_incomplete_on_failed_removal :
    ¬ (∀ (o : StopOutcome) (K : String) (s : State), Reachable s →
        IsCapturing s K = true →
        ∀ n ∈ (StopCapture o K s).files, Match (namePattern K) n ≠ some true) := by
  intro hall
  exact hall failOutcome "web" oneCaptureWithFile
    (Reachable.files _ _ (Reachable.start _ _ _ _ (Reachable.init 100 [])))
    (by decide) "capture-web.pcap0" (by decide) (by decide)

/-- C4, amended. Cleanup completeness when the removals succeed: if `K` is
tracked and `os.Remove` succeeds on every file returned by the glob, then
after `StopCapture(K)` the glob of `K` finds no file in the capture directory,
and for a key without path separator no entry of the capture directory matches
the pattern `capture-K.pcap*`. -/
theorem cleanup_complete_when_removals_succeed (o : StopOutcome) (K : String) (s : State)
    (h : IsCapturing s K = true)
    (hr : ∀ f ∈ Glob (capturePattern K) s.files, o.removeOk f = true) :
    Glob (capturePattern K) (StopCapture o K s).files = [] ∧
    ('/' ∉ K.data →
      ∀ n ∈ (StopCapture o K s).files, Match (namePattern K) n ≠ some true) := by
  have hq := globPred_false_after_stop h hr
  constructor
  · rw [Glob_eq_filter, List.map_eq_nil_iff, List.filter_eq_nil_iff]
    intro n hn
    simp [hq n hn]
  · intro hK n hn hm
    have := hq n hn
    rw [globPred_capturePattern K hK, hm] at this
    simp at this

/-- Witness of the amended C4: stopping `web` with every removal succeeding
leaves no entry matching its pattern. -/
theorem cleanup_complete_when_removals_succeed_witness :
    IsCapturing twoCapturesWithFiles "web" = true ∧
    (∀ f ∈ Glob (capturePattern "web") twoCapturesWithFiles.files,
      okOutcome.removeOk f = true) ∧
    Glob (capturePattern "web") (StopCapture okOutcome "web" twoCapturesWithFiles).files
      = [] ∧
    (∀ n ∈ (StopCapture okOutcome "web" twoCapturesWithFiles).files,
      Match (namePattern "web") n ≠ some true) :=
  ⟨by decide, fun _ _ => rfl,
    (cleanup_complete_when_removals_succeed okOutcome "web" twoCapturesWithFiles (by decide)
      (fun _ _ => rfl)).1,
    (cleanup_complete_when_removals_succeed okOutcome "web" twoCapturesWithFiles (by decide)
      (fun _ _ => rfl)).2 (by decide)⟩

/-- C5. Default substitution: the `maxFiles` that `handlePod` passes to
`StartCapture` for the annotation value `a` is `n` when `Atoi` returns `n`
without error and `n > 0`, and 1 when `Atoi` fails or returns a value `<= 0`;
it is always at least 1; the values 0, -5 and abc give 1 and 3 gives 3. -/
theorem default_substitution (a : String) :
    (∀ (launchOk : Bool) (o : StopOutcome) (pod : Pod) (s : State),
      annotationLookup annotationKey pod.annotations = some a →
      IsCapturing s pod.name = false →
      handlePod launchOk o pod s =
        StartCapture launchOk pod.name
          (match Atoi a with
            | some n => if 0 < n then n else 1
            | none => 1)
          (s.emit [Event.log (LogRecord.startingCapture pod.name pod.ns
            (match Atoi a with
              | some n => if 0 < n then n else 1
              | none => 1))])) ∧
    (∀ n, Atoi a = some n → 0 < n → parseMaxFiles a = n) ∧
    (∀ n, Atoi a = some n → n ≤ 0 → parseMaxFiles a = 1) ∧
    (Atoi a = none → parseMaxFiles a = 1) ∧
    1 ≤ parseMaxFiles a ∧
    parseMaxFiles "0" = 1 ∧ parseMaxFiles "-5" = 1 ∧ parseMaxFiles "abc" = 1 ∧
    parseMaxFiles "3" = 3 := by
  have hpm : parseMaxFiles a =
      (match Atoi a with
        | some n => if 0 < n then n else 1
        | none => 1) := by
    unfold parseMaxFiles
    cases Atoi a with
    | none => rfl
    | some n =>
      by_cases hn : n ≤ 0
      · have : ¬ 0 < n := not_lt.mpr hn
        simp [hn, this]
      · have : 0 < n := not_le.mp hn
        simp [hn, this]
  refine ⟨?_, ?_, ?_, ?_, ?_, by decide, by decide, by decide, by decide⟩
  · intro launchOk o pod s hv hc
    rw [← hpm]
    simp [handlePod, hv, hc]
  · intro n hn hpos
    simp [hpm, hn, hpos]
  · intro n hn hle
    have : ¬ 0 < n := not_lt.mpr hle
    simp [hpm, hn, this]
  · intro hn
    simp [hpm, hn]
  · rw [hpm]
    cases Atoi a with
    | none => simp
    | some n =>
      by_cases hn : 0 < n
      · simp only [hn, if_true]
        omega
      · simp [hn]

/-- Witness of C5: on a fresh manager, the annotation value -5 starts the
capture of `web` with one file. -/
theorem default_substitution_witness :
    handlePod true okOutcome (annotatedPod "-5") (NewManager 100 []) =
      StartCapture true "web" 1
        ((NewManager 100 []).emit
          [Event.log (LogRecord.startingCapture "web" "default" 1)]) :=
  (default_substitution "-5").1 true okOutcome (annotatedPod "-5") (NewManager 100 [])
    (by decide) (by decide)

/-- C6. Launch-failure atomicity: when `K` has no entry and the launch fails,
`StartCapture` leaves the table, the files and the set of started processes as
they were, `K` is still not capturing, and a later `StartCapture` for `K` calls
`cmd.Start()` again, creating the entry exactly when that launch succeeds. -/
theorem launch_failure_atomic (s : State) (K : String) (n : Int)
    (h : IsCapturing s K = false) :
    (StartCapture false K n s).captures = s.captures ∧
    IsCapturing (StartCapture false K n s) K = false ∧
    (∀ K2, IsCapturing (StartCapture false K n s) K2 = IsCapturing s K2) ∧
    (StartCapture false K n s).files = s.files ∧
    launchedPids (StartCapture false K n s).events = launchedPids s.events ∧
    (∀ ok2 : Bool,
      launchAttempts (StartCapture ok2 K n (StartCapture false K n s)).events =
        launchAttempts (StartCapture false K n s).events ++ [tcpdumpArgs K n] ∧
      IsCapturing (StartCapture ok2 K n (StartCapture false K n s)) K = ok2) := by
  have h0 := h
  unfold IsCapturing at h
  simp at h
  have hs : StartCapture false K n s =
      s.emit [Event.cmdStart (tcpdumpArgs K n) none, Event.log (LogRecord.failedToStart K)] := by
    simp [StartCapture, h]
  rw [hs]
  refine ⟨rfl, h0, fun _ => rfl, rfl, ?_, ?_⟩
  · simp [State.emit, launchedPids_append, launchedPids]
  · intro ok2
    cases ok2 with
    | false =>
      simp [StartCapture, State.emit, h, launchAttempts_append, launchAttempts, IsCapturing]
    | true =>
      simp [StartCapture, State.emit, h, launchAttempts_append, launchAttempts, IsCapturing,
        mapInsert, mapLookup]

/-- Witness of C6: a failed launch for `cache` next to two running captures. -/
theorem launch_failure_atomic_witness :
    IsCapturing twoCaptures "cache" = false ∧
    (StartCapture false "cache" 4 twoCaptures).captures = twoCaptures.captures ∧
    IsCapturing (StartCapture false "cache" 4 twoCaptures) "cache" = false :=
  ⟨by decide,
    (launch_failure_atomic twoCaptures "cache" 4 (by decide)).1,
    (launch_failure_atomic twoCaptures "cache" 4 (by decide)).2.1⟩

/-- C7. Stop is never blocked by errors: on a state where `K` is tracked with
process `c`, whatever the outcomes of the signal, the wait, the glob and each
removal, `StopCapture` calls `Wait` on `c`, removes `K` from the table and
leaves the other entries, and calls `os.Remove` on every file returned by the
glob, in order, whether or not an earlier removal failed. -/
theorem stop_not_blocked (o : StopOutcome) (K : String) (s : State) (c : Cmd)
    (h : mapLookup K s.captures = some c) :
    IsCapturing (StopCapture o K s) K = false ∧
    (StopCapture o K s).captures = mapDelete K s.captures ∧
    (StopCapture o K s).events =
      s.events ++ stopEvents o K c (Glob (capturePattern K) s.files) ∧
    signaledPids (StopCapture o K s).events = signaledPids s.events ++ [c.pid] ∧
    waitedPids (StopCapture o K s).events = waitedPids s.events ++ [c.pid] ∧
    removeAttempts (StopCapture o K s).events =
      removeAttempts s.events ++ Glob (capturePattern K) s.files := by
  unfold StopCapture
  have hev := stopCaptureLocked_events (o := o) h
  refine ⟨?_, stopCaptureLocked_captures o K s, hev, ?_, ?_, ?_⟩
  · simp [IsCapturing, stopCaptureLocked_captures, mapLookup_mapDelete_self]
  · rw [hev, signaledPids_append, signaledPids_stopEvents]
  · rw [hev, waitedPids_append, waitedPids_stopEvents]
  · rw [hev, removeAttempts_append, removeAttempts_stopEvents]

/-- Witness of C7: the signal fails and the removal of the first of three
files fails; the wait and the three removals are attempted all the same. -/
theorem stop_not_blocked_witness :
    mapLookup "web" twoCapturesWithFiles.captures =
      some { pid := 100, args := tcpdumpArgs "web" 3 } ∧
    IsCapturing (StopCapture mixedOutcome "web" twoCapturesWithFiles) "web" = false ∧
    waitedPids (StopCapture mixedOutcome "web" twoCapturesWithFiles).events =
      waitedPids twoCapturesWithFiles.events ++ [100] ∧
    removeAttempts (StopCapture mixedOutcome "web" twoCapturesWithFiles).events =
      removeAttempts twoCapturesWithFiles.events ++
        Glob (capturePattern "web") twoCapturesWithFiles.files :=
  ⟨by decide,
    (stop_not_blocked mixedOutcome "web" twoCapturesWithFiles
      { pid := 100, args := tcpdumpArgs "web" 3 } (by decide)).1,
    (stop_not_blocked mixedOutcome "web" twoCapturesWithFiles
      { pid := 100, args := tcpdumpArgs "web" 3 } (by decide)).2.2.2.2.1,
    (stop_not_blocked mixedOutcome "web" twoCapturesWithFiles
      { pid := 100, args := tcpdumpArgs "web" 3 } (by decide)).2.2.2.2.2⟩

/-- C8. `StopAll` stops every tracked key: from a reachable state and for every
order in which the loop may visit the keys, the table is empty afterwards and
every process that was tracked, not yet signalled and not yet waited on
before, occurs exactly once among the signalled and exactly once among the
waited-on processes of the trace. -/
theorem stop_all_complete (order : List String) (o : String → StopOutcome) (s : State)
    (h : Reachable s) (hp : order.Perm (keys s)) :
    (StopAll order o s).captures = [] ∧
    (∀ K, IsCapturing (StopAll order o s) K = false) ∧
    (∀ p ∈ trackedPids s,
      List.count p (signaledPids s.events) = 0 ∧
      List.count p (waitedPids s.events) = 0 ∧
      List.count p (signaledPids (StopAll order o s).events) = 1 ∧
      List.count p (waitedPids (StopAll order o s).events) = 1) := by
  have hcap : (StopAll order o s).captures = [] := by
    rw [StopAll_captures, List.filter_eq_nil_iff]
    intro e he
    have : e.1 ∈ order := hp.mem_iff.mpr (List.mem_map.mpr ⟨e, he, rfl⟩)
    simpa using this
  have hi := inv_of_reachable h
  have hf := inv_StopAll order o s hi
  refine ⟨hcap, ?_, ?_⟩
  · intro K
    simp [IsCapturing, hcap, mapLookup]
  · intro p hpt
    have hl := (hi.live p).mp hpt
    have hw : p ∈ waitedPids (StopAll order o s).events := by
      by_contra hnw
      have : p ∈ trackedPids (StopAll order o s) :=
        (hf.live p).mpr ⟨by rw [launchedPids_StopAll]; exact hl.1, hnw⟩
      simp [trackedPids, hcap] at this
    refine ⟨?_, List.count_eq_zero_of_not_mem hl.2, ?_,
      List.count_eq_one_of_mem hf.waitedNodup hw⟩
    · rw [hi.signaledEq]
      exact List.count_eq_zero_of_not_mem hl.2
    · rw [hf.signaledEq]
      exact List.count_eq_one_of_mem hf.waitedNodup hw

/-- Witness of C8: shutting down while `web` and `db` are capturing, the loop
visiting `web` first and every system call failing. -/
theorem stop_all_complete_witness :
    Reachable twoCapturesWithFiles ∧
    ["web", "db"].Perm (keys twoCapturesWithFiles) ∧
    (StopAll ["web", "db"] (fun _ => failOutcome) twoCapturesWithFiles).captures = [] ∧
    List.count 100
      (waitedPids (StopAll ["web", "db"] (fun _ => failOutcome) twoCapturesWithFiles).events)
        = 1 :=
  ⟨Reachable.files _ _ (Reachable.start _ _ _ _ (Reachable.start _ _ _ _
      (Reachable.init 100 []))),
    by decide,
    (stop_all_complete ["web", "db"] (fun _ => failOutcome) twoCapturesWithFiles
      (Reachable.files _ _ (Reachable.start _ _ _ _ (Reachable.start _ _ _ _
        (Reachable.init 100 [])))) (by decide)).1,
    ((stop_all_complete ["web", "db"] (fun _ => failOutcome) twoCapturesWithFiles
      (Reachable.files _ _ (Reachable.start _ _ _ _ (Reachable.start _ _ _ _
        (Reachable.init 100 [])))) (by decide)).2.2 100 (by decide)).2.2.2⟩

/-- C9. Idempotent stop: `StopCapture` on a key without entry returns the state
it was given: same table, same files, and no event (no signal, no wait, no
removal) added to the trace. -/
theorem idempotent_stop (o : StopOutcome) (K : String) (s : State)
    (h : IsCapturing s K = false) : StopCapture o K s = s := by
  unfold IsCapturing at h
  simp at h
  exact stopCaptureLocked_none h

/-- Witness of C9: stopping `cache` while only `web` and `db` are tracked. -/
theorem idempotent_stop_witness :
    IsCapturing twoCapturesWithFiles "cache" = false ∧
    StopCapture failOutcome "cache" twoCapturesWithFiles = twoCapturesWithFiles :=
  ⟨by decide, idempotent_stop failOutcome "cache" twoCapturesWithFiles (by decide)⟩

/-- C10 fails on the code: with `web` and `web.pcap` both tracked, the first
rotated file of `web.pcap` matches the deletion pattern built for `web`, and
`StopCapture` for `web` removes it while `web.pcap` is still capturing. -/
theorem stop_deletes_artifact_of_other_key :
    Reachable overlappingCaptures ∧
    IsCapturing overlappingCaptures "web" = true ∧
    IsCapturing overlappingCaptures "web.pcap" = true ∧
    captureName "web.pcap" ++ "0" ∈ overlappingCaptures.files ∧
    captureFile "web.pcap" ++ "0" ∈
      Glob (capturePattern "web") overlappingCaptures.files ∧
    Event.remove (captureFile "web.pcap" ++ "0") true ∈
      (StopCapture okOutcome "web" overlappingCaptures).events ∧
    captureName "web.pcap" ++ "0" ∉ (StopCapture okOutcome "web" overlappingCaptures).files ∧
    IsCapturing (StopCapture okOutcome "web" overlappingCaptures) "web.pcap" = true :=
  ⟨Reachable.files _ _ (Reachable.start _ _ _ _ (Reachable.start _ _ _ _
      (Reachable.init 100 []))),
    by decide, by decide, by decide, by decide, by decide, by decide, by decide⟩

end PacketCapture
